import Mathlib

/-!
The `mockery` example project: `Project` over a `ProjectStorage`

A shallow embedding of `example/src/project/Project.cpp`,
`example/src/project/FilesystemProjectStorage.cpp` and the headers they use.

* `std::string` / `std::string_view` are `String`; character-level work is
  done on the underlying `List Char`.
* `int` is an `Int` restricted to `INT_MIN ≤ n ≤ INT_MAX` (`IsInt`).
* A C++ exception is a value of `Exception`; a call that may throw returns an
  `Except Exception _` together with the state it leaves behind.
* A storage object is a state `σ` with the six virtual methods of
  `ProjectStorage` acting on it.
-/

namespace Mockery

/-! ## Library vocabulary -/

/-- The exceptions that occur in the example. -/
inductive Exception where
  | runtime_error (what : String)
  | filesystem_error (what : String)
  | ProjectNotFound
  deriving DecidableEq, Repr

/-- The `enum class Type` of `ProjectStorage.h`. -/
inductive FileType where
  | Unknown
  | File
  | Directory
  | SymLink
  deriving DecidableEq, Repr

/-- A `std::map<std::string, Type>`, kept as an association list with unique keys. -/
abbrev StdMap := List (String × FileType)

/-- The member `std::map::count`: the number of entries with the given key (0 or 1). -/
def StdMap.count (m : StdMap) (key : String) : Nat :=
  if m.any (fun kv => kv.1 == key) then 1 else 0

/-- The member `std::map::insert`: adds the pair unless the key is already present. -/
def StdMap.insert (m : StdMap) (kv : String × FileType) : StdMap :=
  if m.any (fun e => e.1 == kv.1) then m else m ++ [kv]

def INT_MIN : Int := -2147483648

def INT_MAX : Int := 2147483647

/-- The values of the C++ type `int` (32 bits, two's complement). -/
def IsInt (n : Int) : Prop := INT_MIN ≤ n ∧ n ≤ INT_MAX

instance (n : Int) : Decidable (IsInt n) := by
  unfold IsInt; exact inferInstance

/-- The decimal digit character of `d < 10`. -/
def digitChar (d : Nat) : Char :=
  match d with
  | 0 => '0' | 1 => '1' | 2 => '2' | 3 => '3' | 4 => '4'
  | 5 => '5' | 6 => '6' | 7 => '7' | 8 => '8' | _ => '9'

/-- The value of a decimal digit character. -/
def digitVal (c : Char) : Nat := c.toNat - 48

/-- Decimal digits of a natural number, most significant first; `fuel` bounds the
number of digits produced. -/
def natDigits : Nat → Nat → List Char
  | 0, _ => []
  | fuel + 1, n =>
    if n < 10 then [digitChar n] else natDigits fuel (n / 10) ++ [digitChar (n % 10)]

/-- The function `std::to_string(int)`: the text `printf("%d")` produces. -/
def to_string (value : Int) : String :=
  if value < 0 then String.mk ('-' :: natDigits (value.natAbs + 1) value.natAbs)
  else String.mk (natDigits (value.natAbs + 1) value.natAbs)

/-- The value of a run of decimal digits. -/
def digitsValue (ds : List Char) : Nat :=
  ds.foldl (fun acc c => 10 * acc + digitVal c) 0

/-- The `std::errc` values `std::from_chars` can report. -/
inductive errc where
  | ok
  | invalid_argument
  | result_out_of_range
  deriving DecidableEq, Repr

/-- The `std::from_chars_result`, with `ptr` given as the unconsumed input. -/
structure from_chars_result where
  ptr : List Char
  ec : errc
  deriving DecidableEq, Repr

/-- The function `std::from_chars(first, last, int&)` in base 10: an optional `-`, then the
longest run of digits. Without a digit the result is `invalid_argument`; a value
outside `int` gives `result_out_of_range`; in both cases `value` is unchanged.
Returns the result and the new content of `value`. -/
def from_chars (input : List Char) (value : Int) : from_chars_result × Int :=
  let neg : Bool := input.head? == some '-'
  let body : List Char := if neg then input.drop 1 else input
  let ds := body.takeWhile Char.isDigit
  let rest := body.dropWhile Char.isDigit
  if ds.isEmpty then (⟨input, errc.invalid_argument⟩, value)
  else
    let v : Int := if neg then -(digitsValue ds : Int) else (digitsValue ds : Int)
    if INT_MIN ≤ v ∧ v ≤ INT_MAX then (⟨rest, errc.ok⟩, v)
    else (⟨rest, errc.result_out_of_range⟩, value)

/-- The call `std::getline(is, line)` on a stream holding `is`: `none` when the
stream is exhausted (no character extracted, the stream goes bad); otherwise
the characters before the first newline and the stream after that newline. -/
def getline (is : List Char) : Option (List Char × List Char) :=
  match is with
  | [] => none
  | _ :: _ => some (is.takeWhile (fun c => c != '\n'), (is.dropWhile (fun c => c != '\n')).drop 1)

/-- The member `std::string_view::find(char)`: position of the first occurrence, `none` for `npos`. -/
def find (s : List Char) (c : Char) : Option Nat :=
  match s with
  | [] => none
  | x :: xs => if x = c then some 0 else (find xs c).map (· + 1)

/-- The member `std::string_view::substr(pos)`, `substr(pos, n)` (for `pos ≤ size`). -/
def substr (s : List Char) (pos : Nat) (n : Option Nat := none) : List Char :=
  match n with
  | none => s.drop pos
  | some k => (s.drop pos).take k

/-! ## `ProjectStorage.h` -/

/-- The abstract class `ProjectStorage`: the virtual methods, acting on an object state `σ`.
A method that may throw returns the exception or the value, and the state left. -/
structure ProjectStorage (σ : Type) where
  Open : String → σ → Bool × σ
  Close : σ → Bool × σ
  IsOpen : σ → Bool × σ
  ReadFile : String → σ → Except Exception String × σ
  SaveFile : String → String → σ → Except Exception Unit × σ
  List : σ → Except Exception StdMap × σ

/-! ## `Project.h`, `Project.cpp` -/

def DefaultVerbosity : Int := 1

def SettingsFilename : String := "settings.toml"

/-- The data members of `class Project`; `m_Storage` is the state of the owned storage. -/
structure Project (σ : Type) where
  m_Storage : σ
  m_Verbosity : Int := DefaultVerbosity
  m_UnsavedSettings : Bool := true

/-- The body of the `while (std::getline(is, line))` loop of `Project::ReadSettings`. -/
def ReadSettingsLine {σ : Type} (p : Project σ) (line : List Char) : Project σ :=
  match find line '=' with
  | none => p
  | some eq =>
    let key := substr line 0 (some eq)
    let val := substr line (eq + 1)
    if key = "verbose".toList then
      let (r, verbosity) := from_chars val 0
      if r.ec = errc.ok then { p with m_Verbosity := verbosity, m_UnsavedSettings := false }
      else p
    else p

/-- The `while (std::getline(is, line))` loop of `Project::ReadSettings`, with at most
`fuel` iterations. -/
def ReadSettingsLoop {σ : Type} : Nat → List Char → Project σ → Project σ
  | 0, _, p => p
  | fuel + 1, is, p =>
    match getline is with
    | none => p
    | some (line, rest) => ReadSettingsLoop fuel rest (ReadSettingsLine p line)

/-- The method `Project::ReadSettings`. The loop gets one more iteration than the text has
characters, which it never uses up (`ReadSettingsLoop_fuel`). -/
def Project.ReadSettings {σ : Type} (S : ProjectStorage σ) (p : Project σ) :
    Except Exception Bool × Project σ :=
  match S.List p.m_Storage with
  | (Except.error e, s1) => (Except.error e, { p with m_Storage := s1 })
  | (Except.ok list, s1) =>
    if list.count SettingsFilename ≠ 0 then
      match S.ReadFile SettingsFilename s1 with
      | (Except.error e, s2) => (Except.error e, { p with m_Storage := s2 })
      | (Except.ok contents, s2) =>
        (Except.ok true,
          ReadSettingsLoop (contents.data.length + 1) contents.data { p with m_Storage := s2 })
    else (Except.ok false, { p with m_Storage := s1 })

/-- The method `Project::WriteSettings`. -/
def Project.WriteSettings {σ : Type} (S : ProjectStorage σ) (p : Project σ) :
    Except Exception Unit × Project σ :=
  match S.SaveFile SettingsFilename ("verbose=" ++ to_string p.m_Verbosity) p.m_Storage with
  | (Except.error e, s1) => (Except.error e, { p with m_Storage := s1 })
  | (Except.ok _, s1) => (Except.ok (), { p with m_Storage := s1, m_UnsavedSettings := false })

/-- The constructor `Project::Project(name, storage)`. When it throws, no `Project` exists;
the exception is returned with the state in which the storage object is given up. -/
def Project.new {σ : Type} (S : ProjectStorage σ) (name : String) (storage : σ) :
    Except (Exception × σ) (Project σ) :=
  match S.Open ("/projects/" ++ name) storage with
  | (true, s1) =>
    match Project.ReadSettings S { m_Storage := s1 } with
    | (Except.error e, p) => Except.error (e, p.m_Storage)
    | (Except.ok _, p) => Except.ok p
  | (false, s1) => Except.error (Exception.ProjectNotFound, s1)

/-- The destructor `Project::~Project()`. It has no handler: an exception of `WriteSettings`
leaves it at once (which ends the program, the destructor being `noexcept`), and
`Close` is not reached. Returns the outcome and the final storage state. -/
def Project.destroy {σ : Type} (S : ProjectStorage σ) (p : Project σ) :
    Except Exception Unit × σ :=
  if p.m_UnsavedSettings then
    match Project.WriteSettings S p with
    | (Except.error e, p1) => (Except.error e, p1.m_Storage)
    | (Except.ok _, p1) => (Except.ok (), (S.Close p1.m_Storage).2)
  else (Except.ok (), (S.Close p.m_Storage).2)

/-- The method `Project::GetVerbosity`. -/
def Project.GetVerbosity {σ : Type} (p : Project σ) : Int := p.m_Verbosity

/-- The method `Project::SetVerbosity`. -/
def Project.SetVerbosity {σ : Type} (p : Project σ) (verbosity : Int) : Project σ :=
  { p with m_Verbosity := verbosity, m_UnsavedSettings := true }

/-! ## `FilesystemProjectStorage.h`, `FilesystemProjectStorage.cpp` -/

/-- The operations of `<filesystem>` and `<fstream>` the adapter uses, on a file-system
state `ω`. They are parameters of the adapter.
`recursive_directory_iterator w dir` is the paths of the entries the iteration of `dir`
yields, or the message of the `filesystem_error` thrown; `ifstream w path` is the text
read from a stream opened at `path` (empty when it cannot be opened); `ofstream w path
contents` is the state after a stream opened at `path` was sent `contents`. -/
structure FileSystem (ω : Type) where
  is_regular_file : ω → String → Bool
  is_directory : ω → String → Bool
  is_symlink : ω → String → Bool
  recursive_directory_iterator : ω → String → Except String (List String)
  ifstream : ω → String → String
  ofstream : ω → String → String → ω

/-- The operator `std::filesystem::operator/` on POSIX paths: an absolute right side replaces the
left one; otherwise a separator is put between the two unless the left side is
empty or ends in one. -/
def path_append (lhs rhs : String) : String :=
  if rhs.data.head? == some '/' then rhs
  else if lhs.data.isEmpty || lhs.data.getLast? == some '/' then lhs ++ rhs
  else lhs ++ "/" ++ rhs

/-- The object state of a `FilesystemProjectStorage`, `m_ProjectDir`, with the state of
the file system it acts on. -/
structure FilesystemProjectStorage (ω : Type) where
  m_ProjectDir : Option String := none
  world : ω

/-- The function `TypeOfFileAtPath`. -/
def TypeOfFileAtPath {ω : Type} (fs : FileSystem ω) (w : ω) (path : String) : FileType :=
  if fs.is_regular_file w path then FileType.File
  else if fs.is_directory w path then FileType.Directory
  else if fs.is_symlink w path then FileType.SymLink
  else FileType.Unknown

/-- The method `FilesystemProjectStorage::Open`. -/
def FilesystemProjectStorage.Open {ω : Type} (fs : FileSystem ω) (path : String)
    (s : FilesystemProjectStorage ω) : Bool × FilesystemProjectStorage ω :=
  if fs.is_directory s.world path then (true, { s with m_ProjectDir := some path })
  else (false, s)

/-- The method `FilesystemProjectStorage::Close`. -/
def FilesystemProjectStorage.Close {ω : Type} (s : FilesystemProjectStorage ω) :
    Bool × FilesystemProjectStorage ω :=
  match s.m_ProjectDir with
  | some _ => (true, { s with m_ProjectDir := none })
  | none => (false, s)

/-- The method `FilesystemProjectStorage::IsOpen`. -/
def FilesystemProjectStorage.IsOpen {ω : Type} (s : FilesystemProjectStorage ω) : Bool :=
  s.m_ProjectDir.isSome

/-- The exception thrown by the adapter when it is not open. -/
def NotOpen : Exception := Exception.runtime_error "Project is not open."

/-- The method `FilesystemProjectStorage::List`. -/
def FilesystemProjectStorage.List {ω : Type} (fs : FileSystem ω)
    (s : FilesystemProjectStorage ω) : Except Exception StdMap × FilesystemProjectStorage ω :=
  match s.m_ProjectDir with
  | none => (Except.error NotOpen, s)
  | some dir =>
    match fs.recursive_directory_iterator s.world dir with
    | Except.error what => (Except.error (Exception.filesystem_error what), s)
    | Except.ok paths =>
      (Except.ok (paths.foldl
        (fun files_and_dates path =>
          files_and_dates.insert (path, TypeOfFileAtPath fs s.world path)) []), s)

/-- The method `FilesystemProjectStorage::ReadFile`. -/
def FilesystemProjectStorage.ReadFile {ω : Type} (fs : FileSystem ω) (name : String)
    (s : FilesystemProjectStorage ω) : Except Exception String × FilesystemProjectStorage ω :=
  match s.m_ProjectDir with
  | none => (Except.error NotOpen, s)
  | some dir => (Except.ok (fs.ifstream s.world (path_append dir name)), s)

/-- The method `FilesystemProjectStorage::SaveFile`. -/
def FilesystemProjectStorage.SaveFile {ω : Type} (fs : FileSystem ω) (name : String)
    (contents : String) (s : FilesystemProjectStorage ω) :
    Except Exception Unit × FilesystemProjectStorage ω :=
  match s.m_ProjectDir with
  | none => (Except.error NotOpen, s)
  | some dir =>
    (Except.ok (), { s with world := fs.ofstream s.world (path_append dir name) contents })

/-- The class `FilesystemProjectStorage` as an implementation of `ProjectStorage`. -/
def FilesystemProjectStorage.storage {ω : Type} (fs : FileSystem ω) :
    ProjectStorage (FilesystemProjectStorage ω) where
  Open := FilesystemProjectStorage.Open fs
  Close := FilesystemProjectStorage.Close
  IsOpen := fun s => (FilesystemProjectStorage.IsOpen s, s)
  ReadFile := FilesystemProjectStorage.ReadFile fs
  SaveFile := FilesystemProjectStorage.SaveFile fs
  List := FilesystemProjectStorage.List fs

/-! ### A concrete file system -/

/-- What a path of a `Tree` names. -/
inductive Node where
  | file (contents : String)
  | directory
  | symlink (target : String)
  deriving DecidableEq, Repr

/-- A directory tree, given by the absolute paths of its entries (each entry listed after
its parent directory). -/
abbrev Tree := List (String × Node)

/-- The entry at `path`, if any. -/
def Tree.lookup (t : Tree) (path : String) : Option Node :=
  (t.find? (fun e => e.1 == path)).map (fun e => e.2)

/-- The directory part of a path: the text before its last separator. -/
def parent_path (path : String) : String :=
  String.mk ((path.data.reverse.dropWhile (fun c => c != '/')).drop 1).reverse

/-- The file-system operations on a `Tree`, for paths written as in the tree. The
iteration of a directory yields each entry under it, named by the directory path
followed by a separator and the entry's path below it; a symlink is followed by none
of the queries here. -/
def TreeFs : FileSystem Tree where
  is_regular_file := fun t path =>
    match t.lookup path with | some (Node.file _) => true | _ => false
  is_directory := fun t path => t.lookup path == some Node.directory
  is_symlink := fun t path =>
    match t.lookup path with | some (Node.symlink _) => true | _ => false
  recursive_directory_iterator := fun t dir =>
    if t.lookup dir == some Node.directory then
      Except.ok ((t.filter (fun e => (dir ++ "/").data.isPrefixOf e.1.data)).map (fun e => e.1))
    else Except.error "recursive_directory_iterator: not a directory"
  ifstream := fun t path =>
    match t.lookup path with | some (Node.file contents) => contents | _ => ""
  ofstream := fun t path contents =>
    match t.lookup path with
    | some (Node.file _) =>
      t.map (fun e => if e.1 == path then (path, Node.file contents) else e)
    | some _ => t
    | none =>
      if t.lookup (parent_path path) == some Node.directory then t ++ [(path, Node.file contents)]
      else t

/-! ## Observing the calls a storage receives -/

/-- A call of a `ProjectStorage` method, with its arguments. -/
inductive Call where
  | Open (path : String)
  | Close
  | IsOpen
  | List
  | ReadFile (name : String)
  | SaveFile (name : String) (contents : String)
  deriving DecidableEq, Repr

/-- A sequence of calls, in call order. -/
abbrev Calls := List Call

/-- The storage `S` with a record of the calls it receives, in call order (what the
test's mock object does): every method notes its call, then answers as `S` does. -/
def Recording {σ : Type} (S : ProjectStorage σ) : ProjectStorage (σ × List Call) where
  Open := fun path s => ((S.Open path s.1).1, ((S.Open path s.1).2, s.2 ++ [Call.Open path]))
  Close := fun s => ((S.Close s.1).1, ((S.Close s.1).2, s.2 ++ [Call.Close]))
  IsOpen := fun s => ((S.IsOpen s.1).1, ((S.IsOpen s.1).2, s.2 ++ [Call.IsOpen]))
  ReadFile := fun name s =>
    ((S.ReadFile name s.1).1, ((S.ReadFile name s.1).2, s.2 ++ [Call.ReadFile name]))
  SaveFile := fun name contents s =>
    ((S.SaveFile name contents s.1).1,
      ((S.SaveFile name contents s.1).2, s.2 ++ [Call.SaveFile name contents]))
  List := fun s => ((S.List s.1).1, ((S.List s.1).2, s.2 ++ [Call.List]))

/-- A storage with fixed answers, as set up on the mock in `ProjectTest.cpp`: `Open` and
`Close` return `open_result`, `List` returns `listing`, `ReadFile` returns `contents`,
`SaveFile` returns normally. -/
def FixedStorage (open_result : Bool) (listing : StdMap) (contents : String) :
    ProjectStorage Unit where
  Open := fun _ s => (open_result, s)
  Close := fun s => (open_result, s)
  IsOpen := fun s => (open_result, s)
  ReadFile := fun _ s => (Except.ok contents, s)
  SaveFile := fun _ _ s => (Except.ok (), s)
  List := fun s => (Except.ok listing, s)

/-- A storage like `FixedStorage` whose `SaveFile` throws `e`. -/
def FailingSaveStorage (listing : StdMap) (contents : String) (e : Exception) :
    ProjectStorage Unit where
  Open := fun _ s => (true, s)
  Close := fun s => (true, s)
  IsOpen := fun s => (true, s)
  ReadFile := fun _ s => (Except.ok contents, s)
  SaveFile := fun _ _ s => (Except.error e, s)
  List := fun s => (Except.ok listing, s)

/-! ## Vocabulary of the statements -/

/-- A base-10 integer literal in the range of `int`: an optional `-`, then one or more
digits and nothing else, the number written being an `int`. -/
def IsIntLiteral (V : List Char) : Prop :=
  match V with
  | '-' :: ds => ds ≠ [] ∧ (∀ c ∈ ds, c.isDigit = true) ∧ IsInt (-(digitsValue ds : Int))
  | ds => ds ≠ [] ∧ (∀ c ∈ ds, c.isDigit = true) ∧ IsInt (digitsValue ds : Int)

instance (V : List Char) : Decidable (IsIntLiteral V) := by
  unfold IsIntLiteral; split <;> exact inferInstance

/-- The integer a literal writes. -/
def literalValue (V : List Char) : Int :=
  match V with
  | '-' :: ds => -(digitsValue ds : Int)
  | ds => (digitsValue ds : Int)

/-- The longest prefix of `V` made of an optional `-` followed by digits. -/
def intPrefix (V : List Char) : List Char :=
  match V with
  | '-' :: rest => '-' :: rest.takeWhile Char.isDigit
  | _ => V.takeWhile Char.isDigit

/-- A line that is not a `verbose` line: it has no `=`, or the text before its first `=` is
not exactly `verbose`. -/
def Unrelated (line : String) : Prop :=
  '=' ∉ line.data ∨ line.data.takeWhile (fun c => c != '=') ≠ "verbose".toList

instance (line : String) : Decidable (Unrelated line) := by
  unfold Unrelated; exact inferInstance

/-- A text line: it holds no newline character. -/
def IsLine (line : String) : Prop := '\n' ∉ line.data

instance (line : String) : Decidable (IsLine line) := by
  unfold IsLine; exact inferInstance

/-- The file content made of the given lines, a newline between one line and the next. -/
def joinLines : List String → String
  | [] => ""
  | [line] => line
  | line :: rest => line ++ "\n" ++ joinLines rest

/-- The state of the storage after it received the call `c` in state `s`. -/
def ProjectStorage.step {σ : Type} (S : ProjectStorage σ) (s : σ) (c : Call) : σ :=
  match c with
  | Call.Open path => (S.Open path s).2
  | Call.Close => (S.Close s).2
  | Call.IsOpen => (S.IsOpen s).2
  | Call.List => (S.List s).2
  | Call.ReadFile name => (S.ReadFile name s).2
  | Call.SaveFile name contents => (S.SaveFile name contents s).2

/-- The state of the storage after it received the calls `cs`, in this order, from state `s`. -/
def ProjectStorage.run {σ : Type} (S : ProjectStorage σ) (s : σ) (cs : Calls) : σ :=
  cs.foldl S.step s

/-- The storage was successfully opened during the calls `cs` made from state `s`, and
not closed since: some `Open` among them returned true and no `Close` comes after it. -/
def OpenedAndNotClosed {σ : Type} (S : ProjectStorage σ) (s : σ) (cs : List Call) : Prop :=
  ∃ pre path post, cs = pre ++ Call.Open path :: post ∧
    (S.Open path (S.run s pre)).1 = true ∧ Call.Close ∉ post

/-- A file system with the project `my_project`, whose settings file holds `verbose=3`. -/
def exampleTree : Tree :=
  [("/projects", Node.directory), ("/projects/my_project", Node.directory),
    ("/projects/my_project/settings.toml", Node.file "verbose=3")]

/-! ## Decimal rendering and parsing -/

theorem digitChar_isDigit (d : Nat) (h : d < 10) : (digitChar d).isDigit = true := by
  interval_cases d <;> rfl

theorem digitVal_digitChar (d : Nat) (h : d < 10) : digitVal (digitChar d) = d := by
  interval_cases d <;> rfl

theorem digitsValue_append (xs : List Char) (c : Char) :
    digitsValue (xs ++ [c]) = 10 * digitsValue xs + digitVal c := by
  simp [digitsValue, List.foldl_append]

theorem natDigits_spec (fuel : Nat) : ∀ n : Nat, n < fuel →
    (∀ c ∈ natDigits fuel n, c.isDigit = true) ∧ natDigits fuel n ≠ [] ∧
      digitsValue (natDigits fuel n) = n := by
  induction fuel with
  | zero => intro n h; omega
  | succ k ih =>
    intro n h
    unfold natDigits
    by_cases hn : n < 10
    · simp only [hn, if_true]
      refine ⟨?_, by simp, ?_⟩
      · intro c hc
        simp only [List.mem_singleton] at hc
        subst hc
        exact digitChar_isDigit n hn
      · simp [digitsValue, digitVal_digitChar n hn]
    · simp only [hn, if_false]
      have hk : n / 10 < k := by omega
      obtain ⟨h1, h2, h3⟩ := ih (n / 10) hk
      refine ⟨?_, by simp, ?_⟩
      · intro c hc
        rcases List.mem_append.mp hc with hc | hc
        · exact h1 c hc
        · simp only [List.mem_singleton] at hc
          subst hc
          exact digitChar_isDigit _ (Nat.mod_lt _ (by decide))
      · rw [digitsValue_append, h3, digitVal_digitChar _ (Nat.mod_lt _ (by decide))]
        omega

theorem takeWhile_eq_self_of_all {α : Type} (q : α → Bool) (l : List α)
    (h : ∀ c ∈ l, q c = true) : l.takeWhile q = l := by
  induction l with
  | nil => rfl
  | cons x xs ih =>
    have hx : q x = true := h x (List.mem_cons_self _ _)
    simp only [List.takeWhile_cons, hx, if_true]
    rw [ih (fun c hc => h c (List.mem_cons_of_mem _ hc))]

theorem dropWhile_eq_nil_of_all {α : Type} (q : α → Bool) (l : List α)
    (h : ∀ c ∈ l, q c = true) : l.dropWhile q = [] := by
  induction l with
  | nil => rfl
  | cons x xs ih =>
    have hx : q x = true := h x (List.mem_cons_self _ _)
    simp only [List.dropWhile_cons, hx, if_true]
    exact ih (fun c hc => h c (List.mem_cons_of_mem _ hc))

/-- Parsing a text of digits only. -/
theorem from_chars_digits (ds : List Char) (value : Int) (hd : ∀ c ∈ ds, c.isDigit = true)
    (hne : ds ≠ []) :
    from_chars ds value =
      if INT_MIN ≤ (digitsValue ds : Int) ∧ (digitsValue ds : Int) ≤ INT_MAX
      then (⟨[], errc.ok⟩, (digitsValue ds : Int))
      else (⟨[], errc.result_out_of_range⟩, value) := by
  obtain ⟨c, cs, rfl⟩ := List.exists_cons_of_ne_nil hne
  have hc : c.isDigit = true := hd c (List.mem_cons_self _ _)
  have hneg : ((c :: cs).head? == some '-') = false := by
    simp only [List.head?_cons, beq_eq_false_iff_ne, ne_eq, Option.some.injEq]
    rintro rfl
    exact absurd hc (by decide)
  unfold from_chars
  simp only [hneg, Bool.false_eq_true, if_false]
  rw [takeWhile_eq_self_of_all _ _ hd, dropWhile_eq_nil_of_all _ _ hd]
  simp

/-- Parsing a `-` followed by digits only. -/
theorem from_chars_minus_digits (ds : List Char) (value : Int)
    (hd : ∀ c ∈ ds, c.isDigit = true) (hne : ds ≠ []) :
    from_chars ('-' :: ds) value =
      if INT_MIN ≤ -(digitsValue ds : Int) ∧ -(digitsValue ds : Int) ≤ INT_MAX
      then (⟨[], errc.ok⟩, -(digitsValue ds : Int))
      else (⟨[], errc.result_out_of_range⟩, value) := by
  unfold from_chars
  simp only [List.head?_cons, beq_self_eq_true, if_true, List.drop_succ_cons, List.drop_zero]
  rw [takeWhile_eq_self_of_all _ _ hd, dropWhile_eq_nil_of_all _ _ hd]
  simp [hne]

/-- Parsing what `to_string` renders gives the number back. -/
theorem from_chars_to_string (N : Int) (hN : IsInt N) (value : Int) :
    from_chars (to_string N).data value = (⟨[], errc.ok⟩, N) := by
  obtain ⟨h1, h2, h3⟩ := natDigits_spec (N.natAbs + 1) N.natAbs (Nat.lt_succ_self _)
  unfold IsInt at hN
  unfold to_string
  by_cases hneg : N < 0
  · simp only [hneg, if_true]
    rw [from_chars_minus_digits _ _ h1 h2, h3]
    have : -((N.natAbs : Nat) : Int) = N := by omega
    rw [this, if_pos hN]
  · simp only [hneg, if_false]
    rw [from_chars_digits _ _ h1 h2, h3]
    have : ((N.natAbs : Nat) : Int) = N := by omega
    rw [this, if_pos hN]


/-! ## The settings loop -/

theorem find_eq_none {s : List Char} {c : Char} (h : c ∉ s) : find s c = none := by
  induction s with
  | nil => rfl
  | cons x xs ih =>
    have hx : ¬ x = c := fun e => h (e ▸ List.mem_cons_self _ _)
    have hxs : c ∉ xs := fun m => h (List.mem_cons_of_mem _ m)
    simp [find, hx, ih hxs]

theorem find_eq_some {s : List Char} {c : Char} {k : Nat} (h : find s c = some k) :
    s.take k = s.takeWhile (fun x => x != c) := by
  induction s generalizing k with
  | nil => simp [find] at h
  | cons x xs ih =>
    unfold find at h
    by_cases hx : x = c
    · simp only [hx, if_true, Option.some.injEq] at h
      subst h
      simp [hx]
    · simp only [hx, if_false, Option.map_eq_some'] at h
      obtain ⟨j, hj, rfl⟩ := h
      have hne : (x != c) = true := by simpa using hx
      simp only [List.take_succ_cons, List.takeWhile_cons, hne, if_true]
      rw [ih hj]

/-- A line that is not a `verbose` line changes nothing. -/
theorem ReadSettingsLine_unrelated {σ : Type} (p : Project σ) (line : String)
    (h : Unrelated line) : ReadSettingsLine p line.data = p := by
  unfold ReadSettingsLine
  rcases h with h | h
  · rw [find_eq_none h]
  · cases hf : find line.data '=' with
    | none => rfl
    | some eq =>
      have hk : substr line.data 0 (some eq) ≠ "verbose".toList := by
        simp only [substr, List.drop_zero]
        rw [find_eq_some hf]
        exact h
      simp only [hk, if_false]

/-- What a `verbose=` line does: the value is handed to `from_chars`. -/
theorem ReadSettingsLine_verbose {σ : Type} (p : Project σ) (V : List Char) :
    ReadSettingsLine p ("verbose=".toList ++ V) =
      if (from_chars V 0).1.ec = errc.ok then
        { p with m_Verbosity := (from_chars V 0).2, m_UnsavedSettings := false }
      else p := by
  have hl : "verbose=".toList ++ V = 'v' :: 'e' :: 'r' :: 'b' :: 'o' :: 's' :: 'e' :: '=' :: V := rfl
  have hf : find ("verbose=".toList ++ V) '=' = some 7 := by
    rw [hl]; simp [find]
  have hv : "verbose".toList = ['v', 'e', 'r', 'b', 'o', 's', 'e'] := rfl
  unfold ReadSettingsLine
  rw [hf]
  simp only [substr, hl, hv, List.drop_zero, List.take_succ_cons, List.take_zero,
    List.drop_succ_cons, if_true]

theorem getline_rest_length (is line rest : List Char) (h : getline is = some (line, rest)) :
    rest.length < is.length := by
  cases is with
  | nil => simp [getline] at h
  | cons c t =>
    simp only [getline, Option.some.injEq, Prod.mk.injEq] at h
    obtain ⟨-, rfl⟩ := h
    have := (List.dropWhile_sublist (fun c => c != '\n') (l := c :: t)).length_le
    by_cases hc : (c != '\n') = true
    · have h2 := (List.dropWhile_sublist (fun c => c != '\n') (l := t)).length_le
      simp only [List.dropWhile_cons, hc, if_true, List.length_drop, List.length_cons]
      omega
    · simp only [List.dropWhile_cons, hc, Bool.false_eq_true, if_false, List.drop_succ_cons,
        List.drop_zero, List.length_cons]
      omega

/-- The loop never runs out of iterations: any two bounds above the length of the text
give the same result. -/
theorem ReadSettingsLoop_fuel {σ : Type} (f1 : Nat) : ∀ (f2 : Nat) (is : List Char)
    (p : Project σ), is.length < f1 → is.length < f2 →
    ReadSettingsLoop f1 is p = ReadSettingsLoop f2 is p := by
  induction f1 with
  | zero => intro f2 is p h; omega
  | succ k ih =>
    intro f2 is p h1 h2
    cases f2 with
    | zero => omega
    | succ j =>
      unfold ReadSettingsLoop
      cases hg : getline is with
      | none => rfl
      | some lr =>
        obtain ⟨line, rest⟩ := lr
        have := getline_rest_length is line rest hg
        exact ih j rest _ (by omega) (by omega)

theorem ReadSettingsLoop_nil {σ : Type} (fuel : Nat) (p : Project σ) :
    ReadSettingsLoop fuel [] p = p := by
  cases fuel <;> rfl

theorem getline_line_cons (l rest : List Char) (h : '\n' ∉ l) :
    getline (l ++ '\n' :: rest) = some (l, rest) := by
  have ha : ∀ c ∈ l, (c != '\n') = true := by
    intro c hc
    simp only [bne_iff_ne, ne_eq]
    rintro rfl
    exact h hc
  have h1 : (l ++ '\n' :: rest).takeWhile (fun c => c != '\n') = l := by
    rw [List.takeWhile_append_of_pos ha]; simp
  have h2 : (l ++ '\n' :: rest).dropWhile (fun c => c != '\n') = '\n' :: rest := by
    rw [List.dropWhile_append_of_pos ha]; simp
  cases hl : l ++ '\n' :: rest with
  | nil => simp at hl
  | cons c t =>
    rw [← hl]
    have : getline (l ++ '\n' :: rest) = some ((l ++ '\n' :: rest).takeWhile (fun c => c != '\n'),
        ((l ++ '\n' :: rest).dropWhile (fun c => c != '\n')).drop 1) := by
      rw [hl]; rfl
    rw [this, h1, h2]; rfl

theorem getline_last (l : List Char) (h : '\n' ∉ l) (hne : l ≠ []) :
    getline l = some (l, []) := by
  have ha : ∀ c ∈ l, (c != '\n') = true := by
    intro c hc
    simp only [bne_iff_ne, ne_eq]
    rintro rfl
    exact h hc
  obtain ⟨c, t, rfl⟩ := List.exists_cons_of_ne_nil hne
  simp only [getline]
  rw [takeWhile_eq_self_of_all _ _ ha, dropWhile_eq_nil_of_all _ _ ha]; rfl

/-- The loop on a text made of lines handles the lines one after the other. -/
theorem ReadSettingsLoop_joinLines {σ : Type} (ls : List String) :
    ∀ (fuel : Nat) (p : Project σ), (∀ l ∈ ls, IsLine l) → (joinLines ls).data.length < fuel →
    ReadSettingsLoop fuel (joinLines ls).data p =
      ls.foldl (fun q l => ReadSettingsLine q l.data) p := by
  induction ls with
  | nil => intro fuel p _ _; exact ReadSettingsLoop_nil fuel p
  | cons l rest ih =>
    intro fuel p hl hf
    have hl0 : '\n' ∉ l.data := hl l (List.mem_cons_self _ _)
    cases rest with
    | nil =>
      simp only [joinLines, List.foldl_cons, List.foldl_nil] at hf ⊢
      by_cases hne : l.data = []
      · rw [hne, ReadSettingsLoop_nil]; rfl
      · cases fuel with
        | zero => omega
        | succ k =>
          unfold ReadSettingsLoop
          rw [getline_last _ hl0 hne]
          exact ReadSettingsLoop_nil k _
    | cons l2 rest2 =>
      have hj : (joinLines (l :: l2 :: rest2)).data = l.data ++ '\n' :: (joinLines (l2 :: rest2)).data := by
        simp [joinLines, String.data_append]
      rw [hj] at hf ⊢
      cases fuel with
      | zero => omega
      | succ k =>
        unfold ReadSettingsLoop
        rw [getline_line_cons _ _ hl0]
        simp only [List.foldl_cons]
        apply ih k _ (fun x hx => hl x (List.mem_cons_of_mem _ hx))
        simp only [List.length_append, List.length_cons] at hf
        omega


/-! ## `Project` over an arbitrary storage -/

theorem StdMap.count_ne_zero_iff (m : StdMap) (key : String) :
    m.count key ≠ 0 ↔ ∃ t, (key, t) ∈ m := by
  unfold StdMap.count
  by_cases h : m.any (fun kv => kv.1 == key) = true
  · simp only [h, if_true, ne_eq, one_ne_zero, not_false_eq_true, true_iff]
    obtain ⟨kv, hkv, hk⟩ := List.any_eq_true.mp h
    have : kv.1 = key := by simpa using hk
    exact ⟨kv.2, by rw [← this]; exact hkv⟩
  · simp only [h, Bool.false_eq_true, if_false, ne_eq, not_true_eq_false, false_iff]
    rintro ⟨t, ht⟩
    exact h (List.any_eq_true.mpr ⟨(key, t), ht, by simp⟩)

theorem to_string_chars (N : Int) : ∀ c ∈ (to_string N).data, c = '-' ∨ c.isDigit = true := by
  obtain ⟨h1, -, -⟩ := natDigits_spec (N.natAbs + 1) N.natAbs (Nat.lt_succ_self _)
  intro c hc
  unfold to_string at hc
  by_cases hneg : N < 0
  · simp only [hneg, if_true, List.mem_cons] at hc
    rcases hc with hc | hc
    · exact Or.inl hc
    · exact Or.inr (h1 c hc)
  · simp only [hneg, if_false] at hc
    exact Or.inr (h1 c hc)

/-- The loop on a one-line text that starts with `verbose=`. -/
theorem ReadSettingsLoop_verbose {σ : Type} (p : Project σ) (V : List Char) (fuel : Nat)
    (hV : '\n' ∉ V) (hf : ("verbose=".toList ++ V).length < fuel) :
    ReadSettingsLoop fuel ("verbose=".toList ++ V) p =
      ReadSettingsLine p ("verbose=".toList ++ V) := by
  have hl : '\n' ∉ "verbose=".toList ++ V := by
    intro h
    rcases List.mem_append.mp h with h | h
    · exact absurd h (by decide)
    · exact hV h
  cases fuel with
  | zero => omega
  | succ k =>
    unfold ReadSettingsLoop
    rw [getline_last _ hl (by simp [String.toList])]
    exact ReadSettingsLoop_nil k _

/-- The loop on the text `WriteSettings` produces. -/
theorem ReadSettingsLoop_to_string {σ : Type} (p : Project σ) (N : Int) (hN : IsInt N) :
    ReadSettingsLoop (("verbose=" ++ to_string N).data.length + 1) ("verbose=" ++ to_string N).data p
      = { p with m_Verbosity := N, m_UnsavedSettings := false } := by
  have hd : ("verbose=" ++ to_string N).data = "verbose=".toList ++ (to_string N).data := by
    simp [String.data_append, String.toList]
  have hV : '\n' ∉ (to_string N).data := by
    intro h
    rcases to_string_chars N _ h with h | h
    · exact absurd h (by decide)
    · exact absurd h (by decide)
  rw [hd, ReadSettingsLoop_verbose p _ _ hV (Nat.lt_succ_self _), ReadSettingsLine_verbose,
    from_chars_to_string N hN]
  simp

/-- C1: when the storage's Open (called with "/projects/" + name) returns false, the
constructor throws ProjectNotFound and that Open is the only call the storage receives. -/
theorem C1_open_failure_throws_ProjectNotFound {σ : Type} (S : ProjectStorage σ)
    (name : String) (storage : σ)
    (hOpen : (S.Open ("/projects/" ++ name) storage).1 = false) :
    Project.new (Recording S) name (storage, []) =
      Except.error (Exception.ProjectNotFound,
        ((S.Open ("/projects/" ++ name) storage).2, [Call.Open ("/projects/" ++ name)])) := by
  simp [Project.new, Recording, hOpen]

/-- C1 at the storage of the test: Open returns false for "/projects/my_project". -/
theorem C1_open_failure_throws_ProjectNotFound_witness :
    (((FixedStorage false [] "").Open ("/projects/" ++ "my_project") ()).1 = false) ∧
    Project.new (Recording (FixedStorage false [] "")) "my_project" ((), []) =
      Except.error (Exception.ProjectNotFound, ((), [Call.Open "/projects/my_project"])) :=
  ⟨rfl, C1_open_failure_throws_ProjectNotFound (FixedStorage false [] "") "my_project" () rfl⟩

/-- The constructor on a storage that opens, lists the settings file and returns the
text `WriteSettings` produces for the int `N`. -/
theorem Project.new_of_written_settings {σ : Type} (S : ProjectStorage σ)
    (name : String) (storage s1 s2 s3 : σ) (list : StdMap) (N : Int) (hN : IsInt N)
    (hOpen : S.Open ("/projects/" ++ name) storage = (true, s1))
    (hList : S.List s1 = (Except.ok list, s2))
    (hKey : ∃ t, ("settings.toml", t) ∈ list)
    (hRead : S.ReadFile "settings.toml" s2 = (Except.ok ("verbose=" ++ to_string N), s3)) :
    Project.new (Recording S) name (storage, []) =
      Except.ok { m_Storage := (s3, [Call.Open ("/projects/" ++ name), Call.List,
        Call.ReadFile "settings.toml"]), m_Verbosity := N, m_UnsavedSettings := false } := by
  have hc : list.count SettingsFilename ≠ 0 := (StdMap.count_ne_zero_iff _ _).mpr hKey
  have hRead2 : S.ReadFile SettingsFilename s2 = (Except.ok ("verbose=" ++ to_string N), s3) :=
    hRead
  simp only [Project.new, Project.ReadSettings, Recording, hOpen, hList, hc, hRead2,
    ne_eq, not_false_eq_true, if_true, List.nil_append, List.cons_append]
  rw [ReadSettingsLoop_to_string _ N hN]
  rfl

/-- C2: when Open succeeds, the listing has the key "settings.toml" and ReadFile returns
"verbose=" followed by the decimal text of the int N, the constructed Project has
verbosity N and clean settings, and the calls of construction and teardown are Open,
List, ReadFile, Close: no SaveFile and exactly one Close. -/
theorem C2_existing_settings_are_loaded_clean {σ : Type} (S : ProjectStorage σ)
    (name : String) (storage s1 s2 s3 : σ) (list : StdMap) (N : Int) (hN : IsInt N)
    (hOpen : S.Open ("/projects/" ++ name) storage = (true, s1))
    (hList : S.List s1 = (Except.ok list, s2))
    (hKey : ∃ t, ("settings.toml", t) ∈ list)
    (hRead : S.ReadFile "settings.toml" s2 = (Except.ok ("verbose=" ++ to_string N), s3)) :
    ∃ proj : Project (σ × List Call),
      Project.new (Recording S) name (storage, []) = Except.ok proj ∧
      proj.GetVerbosity = N ∧ proj.m_UnsavedSettings = false ∧
      Project.destroy (Recording S) proj =
        (Except.ok (), ((S.Close s3).2,
          [Call.Open ("/projects/" ++ name), Call.List, Call.ReadFile "settings.toml",
            Call.Close])) := by
  refine ⟨_, Project.new_of_written_settings S name storage s1 s2 s3 list N hN hOpen hList hKey
    hRead, rfl, rfl, ?_⟩
  simp [Project.destroy, Recording]

/-- C2 at the storage of the test: the listing has three entries, the file holds "verbose=3". -/
theorem C2_existing_settings_are_loaded_clean_witness :
    IsInt 3 ∧
    ∃ proj : Project (Unit × List Call),
      Project.new (Recording (FixedStorage true
          [(".git", FileType.Directory), (".gitignore", FileType.File),
            ("settings.toml", FileType.File)] ("verbose=" ++ to_string 3)))
        "my_project" ((), []) = Except.ok proj ∧
      proj.GetVerbosity = 3 ∧ proj.m_UnsavedSettings = false ∧
      Project.destroy (Recording (FixedStorage true
          [(".git", FileType.Directory), (".gitignore", FileType.File),
            ("settings.toml", FileType.File)] ("verbose=" ++ to_string 3))) proj =
        (Except.ok (), ((),
          [Call.Open ("/projects/" ++ "my_project"), Call.List, Call.ReadFile "settings.toml",
            Call.Close])) :=
  ⟨by decide,
    C2_existing_settings_are_loaded_clean (FixedStorage true
      [(".git", FileType.Directory), (".gitignore", FileType.File),
        ("settings.toml", FileType.File)] ("verbose=" ++ to_string 3))
      "my_project" () () () () _ 3 (by decide) rfl rfl ⟨FileType.File, by decide⟩ rfl⟩


theorem ReadSettingsLine_storage {σ : Type} (p : Project σ) (line : List Char) :
    (ReadSettingsLine p line).m_Storage = p.m_Storage := by
  unfold ReadSettingsLine
  split
  · rfl
  · simp only
    split
    · split <;> rfl
    · rfl

theorem ReadSettingsLoop_storage {σ : Type} (fuel : Nat) :
    ∀ (is : List Char) (p : Project σ), (ReadSettingsLoop fuel is p).m_Storage = p.m_Storage := by
  induction fuel with
  | zero => intro is p; rfl
  | succ k ih =>
    intro is p
    unfold ReadSettingsLoop
    cases getline is with
    | none => rfl
    | some lr => rw [ih, ReadSettingsLine_storage]

/-- A `Project` that comes out of the constructor with clean settings has made exactly the
calls `Open`, `List`, `ReadFile("settings.toml")`: the settings are marked clean only
by a line of the settings file. -/
theorem Project.calls_of_clean_load {σ : Type} (S : ProjectStorage σ) (name : String)
    (storage : σ) (proj : Project (σ × List Call))
    (hNew : Project.new (Recording S) name (storage, []) = Except.ok proj)
    (hClean : proj.m_UnsavedSettings = false) :
    proj.m_Storage.2 =
      [Call.Open ("/projects/" ++ name), Call.List, Call.ReadFile "settings.toml"] := by
  unfold Project.new at hNew
  simp only [Recording, List.nil_append] at hNew
  cases hO : (S.Open ("/projects/" ++ name) storage).1 with
  | false => simp [hO] at hNew
  | true =>
    simp only [hO, Project.ReadSettings] at hNew
    cases hL : (S.List (S.Open ("/projects/" ++ name) storage).2).1 with
    | error e => simp [hL] at hNew
    | ok list =>
      simp only [hL] at hNew
      by_cases hc : list.count SettingsFilename ≠ 0
      · rw [if_pos hc] at hNew
        cases hR : (S.ReadFile SettingsFilename
            (S.List (S.Open ("/projects/" ++ name) storage).2).2).1 with
        | error e => simp [hR] at hNew
        | ok contents =>
          simp only [hR, Except.ok.injEq] at hNew
          rw [← hNew, ReadSettingsLoop_storage]
          rfl
      · rw [if_neg hc] at hNew
        simp only [Except.ok.injEq] at hNew
        rw [← hNew] at hClean
        simp at hClean

/-- C3 (as amended): when Open succeeds and the listing does not have the key
"settings.toml", the constructed Project has made no ReadFile call (its calls are Open,
List), has the default verbosity 1 and dirty settings; its teardown calls
SaveFile("settings.toml", "verbose=1") exactly once; when that call returns normally
Close is called exactly once right after it, and when it throws Close is not called. -/
theorem C3_missing_settings_default_written_at_teardown {σ : Type} (S : ProjectStorage σ)
    (name : String) (storage s1 s2 : σ) (list : StdMap)
    (hOpen : S.Open ("/projects/" ++ name) storage = (true, s1))
    (hList : S.List s1 = (Except.ok list, s2))
    (hKey : ∀ t, ("settings.toml", t) ∉ list) :
    ∃ proj : Project (σ × List Call),
      Project.new (Recording S) name (storage, []) = Except.ok proj ∧
      proj.m_Storage.2 = [Call.Open ("/projects/" ++ name), Call.List] ∧
      proj.GetVerbosity = 1 ∧ proj.m_UnsavedSettings = true ∧
      (∀ s3, S.SaveFile "settings.toml" "verbose=1" s2 = (Except.ok (), s3) →
        Project.destroy (Recording S) proj =
          (Except.ok (), ((S.Close s3).2,
            [Call.Open ("/projects/" ++ name), Call.List,
              Call.SaveFile "settings.toml" "verbose=1", Call.Close]))) ∧
      (∀ e s3, S.SaveFile "settings.toml" "verbose=1" s2 = (Except.error e, s3) →
        Project.destroy (Recording S) proj =
          (Except.error e, (s3,
            [Call.Open ("/projects/" ++ name), Call.List,
              Call.SaveFile "settings.toml" "verbose=1"]))) := by
  have hc : ¬ list.count SettingsFilename ≠ 0 := by
    rw [StdMap.count_ne_zero_iff]
    rintro ⟨t, ht⟩
    exact hKey t ht
  have hts : "verbose=" ++ to_string DefaultVerbosity = "verbose=1" := by decide
  refine ⟨{ m_Storage := (s2, [Call.Open ("/projects/" ++ name), Call.List]) }, ?_, rfl, rfl,
    rfl, ?_, ?_⟩
  · simp only [Project.new, Project.ReadSettings, Recording, hOpen, hList, hc, if_false,
      List.nil_append, List.cons_append]
  · intro s3 hSave
    simp [Project.destroy, Project.WriteSettings, Recording, SettingsFilename, hts, hSave]
  · intro e s3 hSave
    simp [Project.destroy, Project.WriteSettings, Recording, SettingsFilename, hts, hSave]

/-- C3 (as amended) at the storage of the test: the listing is empty and SaveFile returns
normally, so that the calls are Open, List, SaveFile, Close. -/
theorem C3_missing_settings_default_written_at_teardown_witness :
    (∀ t, ("settings.toml", t) ∉ ([] : StdMap)) ∧
    ∃ proj : Project (Unit × List Call),
      Project.new (Recording (FixedStorage true [] "")) "my_project" ((), []) = Except.ok proj ∧
      proj.m_Storage.2 = [Call.Open "/projects/my_project", Call.List] ∧
      proj.GetVerbosity = 1 ∧ proj.m_UnsavedSettings = true ∧
      Project.destroy (Recording (FixedStorage true [] "")) proj =
        (Except.ok (), ((),
          [Call.Open "/projects/my_project", Call.List,
            Call.SaveFile "settings.toml" "verbose=1", Call.Close])) :=
  ⟨fun _ h => by simp at h,
    (C3_missing_settings_default_written_at_teardown (FixedStorage true [] "") "my_project"
      () () () [] rfl rfl (fun _ h => by simp at h)).elim
      (fun proj h => ⟨proj, h.1, h.2.1, h.2.2.1, h.2.2.2.1, h.2.2.2.2.1 () rfl⟩)⟩

/-- C3 as stated fails: over a storage whose Open succeeds, whose listing is empty and
whose SaveFile throws, the Project is constructed with verbosity 1 and dirty settings,
and its teardown calls SaveFile("settings.toml", "verbose=1") and then ends with the
exception: the calls are Open, List, SaveFile, and Close is not among them. -/
theorem C3_counterexample_no_close_after_failed_default_write :
    (∀ t, ("settings.toml", t) ∉ ([] : StdMap)) ∧
    ∃ proj : Project (Unit × List Call),
      Project.new (Recording (FailingSaveStorage [] "" (Exception.runtime_error "read-only")))
        "my_project" ((), []) = Except.ok proj ∧
      proj.GetVerbosity = 1 ∧ proj.m_UnsavedSettings = true ∧
      (Project.destroy
          (Recording (FailingSaveStorage [] "" (Exception.runtime_error "read-only"))) proj).2.2 =
        [Call.Open "/projects/my_project", Call.List,
          Call.SaveFile "settings.toml" "verbose=1"] ∧
      Call.Close ∉ (Project.destroy
          (Recording (FailingSaveStorage [] "" (Exception.runtime_error "read-only"))) proj).2.2 :=
  ⟨fun _ h => by simp at h,
    { m_Storage := ((), [Call.Open "/projects/my_project", Call.List]) }, rfl, rfl, rfl, rfl,
    by decide⟩

/-- C4 (as amended): for every Project that the constructor returns with clean settings
(its calls so far are then Open, List, ReadFile("settings.toml")) and every int v, equal
to the loaded value or not, SetVerbosity(v) makes GetVerbosity() return v and marks the
settings dirty; teardown then calls SaveFile("settings.toml", "verbose=" + decimal text
of v) exactly once; when that call returns normally Close is called exactly once right
after it, and when it throws Close is not called. -/
theorem C4_setter_marks_dirty_and_teardown_writes {σ : Type} (S : ProjectStorage σ)
    (name : String) (storage : σ) (proj : Project (σ × List Call)) (v : Int) (_hv : IsInt v)
    (hNew : Project.new (Recording S) name (storage, []) = Except.ok proj)
    (hClean : proj.m_UnsavedSettings = false) :
    (proj.SetVerbosity v).GetVerbosity = v ∧ (proj.SetVerbosity v).m_UnsavedSettings = true ∧
    (∀ s4, S.SaveFile "settings.toml" ("verbose=" ++ to_string v) proj.m_Storage.1 =
        (Except.ok (), s4) →
      Project.destroy (Recording S) (proj.SetVerbosity v) =
        (Except.ok (), ((S.Close s4).2,
          [Call.Open ("/projects/" ++ name), Call.List, Call.ReadFile "settings.toml",
            Call.SaveFile "settings.toml" ("verbose=" ++ to_string v), Call.Close]))) ∧
    (∀ e s4, S.SaveFile "settings.toml" ("verbose=" ++ to_string v) proj.m_Storage.1 =
        (Except.error e, s4) →
      Project.destroy (Recording S) (proj.SetVerbosity v) =
        (Except.error e, (s4,
          [Call.Open ("/projects/" ++ name), Call.List, Call.ReadFile "settings.toml",
            Call.SaveFile "settings.toml" ("verbose=" ++ to_string v)]))) := by
  have hcalls := Project.calls_of_clean_load S name storage proj hNew hClean
  refine ⟨rfl, rfl, ?_, ?_⟩
  · intro s4 hSave
    simp [Project.destroy, Project.WriteSettings, Project.SetVerbosity, Recording, hSave,
      SettingsFilename, hcalls]
  · intro e s4 hSave
    simp [Project.destroy, Project.WriteSettings, Project.SetVerbosity, Recording, hSave,
      SettingsFilename, hcalls]

/-- C4 (as amended) at a settings file of two lines, "foo=bar" and "verbose=3", and the
verbosity set to 2, SaveFile returning normally. -/
theorem C4_setter_marks_dirty_and_teardown_writes_witness :
    IsInt 2 ∧
    Project.new (Recording (FixedStorage true [("settings.toml", FileType.File)]
        "foo=bar\nverbose=3")) "my_project" ((), []) =
      Except.ok { m_Storage := ((), [Call.Open "/projects/my_project", Call.List,
        Call.ReadFile "settings.toml"]), m_Verbosity := 3, m_UnsavedSettings := false } ∧
    Project.destroy (Recording (FixedStorage true [("settings.toml", FileType.File)]
        "foo=bar\nverbose=3"))
      (Project.SetVerbosity { m_Storage := ((), [Call.Open "/projects/my_project", Call.List,
        Call.ReadFile "settings.toml"]), m_Verbosity := 3, m_UnsavedSettings := false } 2) =
      (Except.ok (), ((),
        [Call.Open "/projects/my_project", Call.List, Call.ReadFile "settings.toml",
          Call.SaveFile "settings.toml" "verbose=2", Call.Close])) :=
  ⟨by decide, rfl,
    (C4_setter_marks_dirty_and_teardown_writes (FixedStorage true
      [("settings.toml", FileType.File)] "foo=bar\nverbose=3") "my_project" ()
      { m_Storage := ((), [Call.Open "/projects/my_project", Call.List,
        Call.ReadFile "settings.toml"]), m_Verbosity := 3, m_UnsavedSettings := false }
      2 (by decide) rfl rfl).2.2.1 () rfl⟩

/-- C4 as stated fails: over a storage whose settings file holds "verbose=3" and whose
SaveFile throws, the Project loads verbosity 3 with clean settings; after SetVerbosity(2)
its teardown calls SaveFile("settings.toml", "verbose=2") and then ends with the
exception: the calls are Open, List, ReadFile, SaveFile, and Close is not among them. -/
theorem C4_counterexample_no_close_after_failed_write :
    ∃ proj : Project (Unit × List Call),
      Project.new (Recording (FailingSaveStorage [("settings.toml", FileType.File)] "verbose=3"
        (Exception.runtime_error "read-only"))) "my_project" ((), []) = Except.ok proj ∧
      proj.GetVerbosity = 3 ∧ proj.m_UnsavedSettings = false ∧
      (Project.destroy (Recording (FailingSaveStorage [("settings.toml", FileType.File)]
          "verbose=3" (Exception.runtime_error "read-only"))) (proj.SetVerbosity 2)).2.2 =
        [Call.Open "/projects/my_project", Call.List, Call.ReadFile "settings.toml",
          Call.SaveFile "settings.toml" "verbose=2"] ∧
      Call.Close ∉ (Project.destroy (Recording (FailingSaveStorage
          [("settings.toml", FileType.File)] "verbose=3"
          (Exception.runtime_error "read-only"))) (proj.SetVerbosity 2)).2.2 :=
  ⟨{ m_Storage := ((), [Call.Open "/projects/my_project", Call.List,
      Call.ReadFile "settings.toml"]), m_Verbosity := 3, m_UnsavedSettings := false },
    rfl, rfl, rfl, rfl, by decide⟩

/-- C8 (as amended): for every Project with dirty settings the destructor calls
SaveFile("settings.toml", "verbose=" + decimal text of the verbosity) once; when that
call returns normally Close is called once right after it, and when it throws the
exception leaves the destructor and Close is not called. -/
theorem C8_teardown_closes_when_write_returns {σ : Type} (S : ProjectStorage σ)
    (proj : Project (σ × List Call)) (hDirty : proj.m_UnsavedSettings = true) :
    (∀ s1, S.SaveFile "settings.toml" ("verbose=" ++ to_string proj.m_Verbosity)
          proj.m_Storage.1 = (Except.ok (), s1) →
        Project.destroy (Recording S) proj =
          (Except.ok (), ((S.Close s1).2, proj.m_Storage.2 ++
            [Call.SaveFile "settings.toml" ("verbose=" ++ to_string proj.m_Verbosity),
              Call.Close]))) ∧
    (∀ e s1, S.SaveFile "settings.toml" ("verbose=" ++ to_string proj.m_Verbosity)
          proj.m_Storage.1 = (Except.error e, s1) →
        Project.destroy (Recording S) proj =
          (Except.error e, (s1, proj.m_Storage.2 ++
            [Call.SaveFile "settings.toml" ("verbose=" ++ to_string proj.m_Verbosity)]))) := by
  constructor
  · intro s1 hSave
    simp [Project.destroy, Project.WriteSettings, Recording, hSave, hDirty, SettingsFilename]
  · intro e s1 hSave
    simp [Project.destroy, Project.WriteSettings, Recording, hSave, hDirty, SettingsFilename]

/-- C8 (as amended) at a freshly defaulted Project over a storage whose SaveFile returns normally. -/
theorem C8_teardown_closes_when_write_returns_witness :
    Project.destroy (Recording (FixedStorage true [] ""))
        { m_Storage := ((), [Call.Open "/projects/my_project", Call.List]) } =
      (Except.ok (), ((), [Call.Open "/projects/my_project", Call.List,
        Call.SaveFile "settings.toml" "verbose=1", Call.Close])) :=
  (C8_teardown_closes_when_write_returns (FixedStorage true [] "")
    { m_Storage := ((), [Call.Open "/projects/my_project", Call.List]) } rfl).1 () rfl

/-- C8 as stated fails: over a storage whose SaveFile throws "Project is not open.", a
Project constructed with an empty listing has dirty settings, and its teardown ends
with that exception after the calls Open, List, SaveFile: Close is never called. -/
theorem C8_counterexample_no_close_when_save_throws :
    ∃ proj : Project (Unit × List Call),
      Project.new (Recording (FailingSaveStorage [] "" NotOpen)) "my_project" ((), []) =
        Except.ok proj ∧
      proj.m_UnsavedSettings = true ∧
      Project.destroy (Recording (FailingSaveStorage [] "" NotOpen)) proj =
        (Except.error NotOpen, ((),
          [Call.Open "/projects/my_project", Call.List,
            Call.SaveFile "settings.toml" "verbose=1"])) ∧
      Call.Close ∉ (Project.destroy (Recording (FailingSaveStorage [] "" NotOpen)) proj).2.2 :=
  ⟨{ m_Storage := ((), [Call.Open "/projects/my_project", Call.List]) }, rfl, rfl, rfl,
    by decide⟩


/-! ## The settings format -/

theorem IsIntLiteral_chars (V : List Char) (h : IsIntLiteral V) :
    ∀ c ∈ V, c = '-' ∨ c.isDigit = true := by
  unfold IsIntLiteral at h
  split at h
  · intro c hc
    rcases List.mem_cons.mp hc with hc | hc
    · exact Or.inl hc
    · exact Or.inr (h.2.1 c hc)
  · intro c hc
    exact Or.inr (h.2.1 c hc)

/-- Parsing a literal gives the integer it writes. -/
theorem from_chars_literal (V : List Char) (h : IsIntLiteral V) (value : Int) :
    from_chars V value = (⟨[], errc.ok⟩, literalValue V) := by
  unfold IsIntLiteral at h
  split at h
  · obtain ⟨h1, h2, h3⟩ := h
    rw [from_chars_minus_digits _ _ h2 h1]
    unfold IsInt at h3
    rw [if_pos h3]
    rfl
  · rename_i hnm
    obtain ⟨h1, h2, h3⟩ := h
    rw [from_chars_digits _ _ h2 h1]
    unfold IsInt at h3
    rw [if_pos h3]
    unfold literalValue
    split
    · exact absurd rfl (hnm _)
    · rfl

theorem IsInt_literalValue (V : List Char) (h : IsIntLiteral V) : IsInt (literalValue V) := by
  unfold IsIntLiteral at h
  split at h
  · exact h.2.2
  · rename_i hnm
    unfold literalValue
    split
    · exact absurd rfl (hnm _)
    · exact h.2.2

/-- The loop on a one-line text `verbose=V` with `V` a literal. -/
theorem ReadSettingsLoop_literal {σ : Type} (p : Project σ) (V : List Char) (fuel : Nat)
    (h : IsIntLiteral V) (hf : ("verbose=".toList ++ V).length < fuel) :
    ReadSettingsLoop fuel ("verbose=".toList ++ V) p =
      { p with m_Verbosity := literalValue V, m_UnsavedSettings := false } := by
  have hV : '\n' ∉ V := by
    intro hm
    rcases IsIntLiteral_chars V h _ hm with h | h
    · exact absurd h (by decide)
    · exact absurd h (by decide)
  rw [ReadSettingsLoop_verbose p V fuel hV hf, ReadSettingsLine_verbose, from_chars_literal V h]
  simp

/-- The method `ReadSettings` when the listing has the settings file: the loop runs on the text read. -/
theorem Project.ReadSettings_of_key {σ : Type} (S : ProjectStorage σ) (p : Project σ)
    (s1 s2 : σ) (list : StdMap) (contents : String)
    (hList : S.List p.m_Storage = (Except.ok list, s1))
    (hKey : ∃ t, ("settings.toml", t) ∈ list)
    (hRead : S.ReadFile "settings.toml" s1 = (Except.ok contents, s2)) :
    Project.ReadSettings S p = (Except.ok true,
      ReadSettingsLoop (contents.data.length + 1) contents.data { p with m_Storage := s2 }) := by
  have hc : list.count SettingsFilename ≠ 0 := (StdMap.count_ne_zero_iff _ _).mpr hKey
  have hRead2 : S.ReadFile SettingsFilename s1 = (Except.ok contents, s2) := hRead
  simp only [Project.ReadSettings, hList, hc, hRead2, ne_eq, not_false_eq_true, if_true]

/-- C5: for every int N, (1) the text WriteSettings hands to SaveFile for verbosity N is
"verbose=" + decimal text of N; (2) ReadSettings, given that text by ReadFile, sets the
verbosity to N and marks the settings clean; (3) ReadSettings given a one-line text
"verbose=V", V an integer literal writing N, does the same, so that read, parse, write,
parse ends with the integer N it started from. -/
theorem C5_write_then_parse_is_identity {σ : Type} (S : ProjectStorage σ) (N : Int)
    (hN : IsInt N) :
    (∀ q : Project (σ × List Call), q.m_Verbosity = N →
      (Project.WriteSettings (Recording S) q).2.m_Storage.2 =
        q.m_Storage.2 ++ [Call.SaveFile "settings.toml" ("verbose=" ++ to_string N)]) ∧
    (∀ (p : Project σ) (s1 s2 : σ) (list : StdMap),
      S.List p.m_Storage = (Except.ok list, s1) → (∃ t, ("settings.toml", t) ∈ list) →
      S.ReadFile "settings.toml" s1 = (Except.ok ("verbose=" ++ to_string N), s2) →
      Project.ReadSettings S p =
        (Except.ok true, { m_Storage := s2, m_Verbosity := N, m_UnsavedSettings := false })) ∧
    (∀ (V : List Char) (p : Project σ) (s1 s2 : σ) (list : StdMap),
      IsIntLiteral V → literalValue V = N →
      S.List p.m_Storage = (Except.ok list, s1) → (∃ t, ("settings.toml", t) ∈ list) →
      S.ReadFile "settings.toml" s1 = (Except.ok (String.mk ("verbose=".toList ++ V)), s2) →
      Project.ReadSettings S p =
        (Except.ok true, { m_Storage := s2, m_Verbosity := N, m_UnsavedSettings := false })) := by
  refine ⟨?_, ?_, ?_⟩
  · intro q hq
    unfold Project.WriteSettings
    rw [hq]
    cases hs : (Recording S).SaveFile SettingsFilename ("verbose=" ++ to_string N) q.m_Storage with
    | mk r s' =>
      have h2 : s'.2 = q.m_Storage.2 ++ [Call.SaveFile "settings.toml" ("verbose=" ++ to_string N)] := by
        have := congrArg (fun x => x.2.2) hs
        simpa [Recording, SettingsFilename] using this.symm
      cases r <;> exact h2
  · intro p s1 s2 list hList hKey hRead
    rw [Project.ReadSettings_of_key S p s1 s2 list _ hList hKey hRead,
      ReadSettingsLoop_to_string _ N hN]
  · intro V p s1 s2 list hV hval hList hKey hRead
    rw [Project.ReadSettings_of_key S p s1 s2 list _ hList hKey hRead,
      ReadSettingsLoop_literal _ V _ hV (Nat.lt_succ_self _), hval]

/-- C5 at INT_MIN: the text written for -2147483648 is read back as -2147483648. -/
theorem C5_write_then_parse_is_identity_witness :
    IsInt (-2147483648) ∧
    Project.ReadSettings
        (FixedStorage true [("settings.toml", FileType.File)] ("verbose=" ++ to_string (-2147483648)))
        { m_Storage := (), m_Verbosity := 1, m_UnsavedSettings := true } =
      (Except.ok true,
        { m_Storage := (), m_Verbosity := -2147483648, m_UnsavedSettings := false }) :=
  ⟨by decide,
    (C5_write_then_parse_is_identity
      (FixedStorage true [("settings.toml", FileType.File)] ("verbose=" ++ to_string (-2147483648)))
      (-2147483648) (by decide)).2.1
      { m_Storage := (), m_Verbosity := 1, m_UnsavedSettings := true } () ()
      [("settings.toml", FileType.File)] rfl ⟨FileType.File, by decide⟩ rfl⟩


theorem foldl_ReadSettingsLine_unrelated {σ : Type} (ls : List String) (p : Project σ)
    (h : ∀ l ∈ ls, Unrelated l) :
    ls.foldl (fun q l => ReadSettingsLine q l.data) p = p := by
  induction ls with
  | nil => rfl
  | cons l rest ih =>
    simp only [List.foldl_cons]
    rw [ReadSettingsLine_unrelated p l (h l (List.mem_cons_self _ _))]
    exact ih (fun x hx => h x (List.mem_cons_of_mem _ hx))

/-- C6: when Open succeeds and the listing has "settings.toml": (1) if the file content is
made of unrelated lines and, anywhere among them, one line "verbose=V" with V an integer
literal, the constructed Project has the verbosity V writes and clean settings; (2) if the
content is made of unrelated lines only, it has the default verbosity and dirty settings. -/
theorem C6_unrelated_lines_are_ignored {σ : Type} (S : ProjectStorage σ) (name : String)
    (storage s1 s2 s3 : σ) (list : StdMap)
    (hOpen : S.Open ("/projects/" ++ name) storage = (true, s1))
    (hList : S.List s1 = (Except.ok list, s2))
    (hKey : ∃ t, ("settings.toml", t) ∈ list) :
    (∀ (pre post : List String) (V : List Char),
      (∀ l ∈ pre ++ post, IsLine l ∧ Unrelated l) → IsIntLiteral V →
      S.ReadFile "settings.toml" s2 =
        (Except.ok (joinLines (pre ++ String.mk ("verbose=".toList ++ V) :: post)), s3) →
      Project.new S name storage =
        Except.ok { m_Storage := s3, m_Verbosity := literalValue V, m_UnsavedSettings := false }) ∧
    (∀ ls : List String, (∀ l ∈ ls, IsLine l ∧ Unrelated l) →
      S.ReadFile "settings.toml" s2 = (Except.ok (joinLines ls), s3) →
      Project.new S name storage =
        Except.ok { m_Storage := s3, m_Verbosity := DefaultVerbosity, m_UnsavedSettings := true }) := by
  constructor
  · intro pre post V hl hV hRead
    have hVline : IsLine (String.mk ("verbose=".toList ++ V)) := by
      intro hm
      rcases List.mem_append.mp hm with hm | hm
      · exact absurd hm (by decide)
      · rcases IsIntLiteral_chars V hV _ hm with h | h
        · exact absurd h (by decide)
        · exact absurd h (by decide)
    have hlines : ∀ l ∈ pre ++ String.mk ("verbose=".toList ++ V) :: post, IsLine l := by
      intro l hm
      rcases List.mem_append.mp hm with hm | hm
      · exact (hl l (List.mem_append_left _ hm)).1
      · rcases List.mem_cons.mp hm with hm | hm
        · rw [hm]; exact hVline
        · exact (hl l (List.mem_append_right _ hm)).1
    have hR := Project.ReadSettings_of_key S { m_Storage := s1 } s2 s3 list _ hList hKey hRead
    rw [ReadSettingsLoop_joinLines _ _ _ hlines (Nat.lt_succ_self _), List.foldl_append,
      List.foldl_cons,
      foldl_ReadSettingsLine_unrelated pre _ (fun l hm => (hl l (List.mem_append_left _ hm)).2),
      foldl_ReadSettingsLine_unrelated post _ (fun l hm => (hl l (List.mem_append_right _ hm)).2),
      ReadSettingsLine_verbose, from_chars_literal V hV] at hR
    simp only [Project.new, hOpen, hR]
    simp
  · intro ls hl hRead
    have hR := Project.ReadSettings_of_key S { m_Storage := s1 } s2 s3 list _ hList hKey hRead
    rw [ReadSettingsLoop_joinLines _ _ _ (fun l hm => (hl l hm).1) (Nat.lt_succ_self _),
      foldl_ReadSettingsLine_unrelated ls _ (fun l hm => (hl l hm).2)] at hR
    simp only [Project.new, hOpen, hR]

/-- C6 at a file of five lines, the third being "verbose=-7" and the last one empty. -/
theorem C6_unrelated_lines_are_ignored_witness :
    Project.new (FixedStorage true [("settings.toml", FileType.File)]
        (joinLines (["# settings", "foo=bar"] ++ String.mk ("verbose=".toList ++ "-7".toList) ::
          ["verbosity=9", ""])))
      "my_project" () =
      Except.ok { m_Storage := (), m_Verbosity := -7, m_UnsavedSettings := false } :=
  (C6_unrelated_lines_are_ignored (FixedStorage true [("settings.toml", FileType.File)]
        (joinLines (["# settings", "foo=bar"] ++ String.mk ("verbose=".toList ++ "-7".toList) ::
          ["verbosity=9", ""])))
      "my_project" () () () () [("settings.toml", FileType.File)] rfl rfl
      ⟨FileType.File, by decide⟩).1
    ["# settings", "foo=bar"] ["verbosity=9", ""] "-7".toList (by decide) (by decide) rfl

/-- The value of a `verbose=` line is adopted exactly when its longest prefix made of an
optional `-` and digits is an integer literal in the range of `int`. -/
theorem from_chars_ok_iff (V : List Char) (value : Int) :
    ((from_chars V value).1.ec = errc.ok ↔ IsIntLiteral (intPrefix V)) ∧
    ((from_chars V value).1.ec = errc.ok → (from_chars V value).2 = literalValue (intPrefix V)) ∧
    ((from_chars V value).1.ec ≠ errc.ok → (from_chars V value).2 = value) := by
  have hall : ∀ l : List Char, ∀ c ∈ l.takeWhile Char.isDigit, c.isDigit = true :=
    fun l c hc => (List.mem_takeWhile_imp hc)
  by_cases hm : ∃ rest, V = '-' :: rest
  · obtain ⟨rest, rfl⟩ := hm
    have hp : intPrefix ('-' :: rest) = '-' :: rest.takeWhile Char.isDigit := rfl
    rw [hp]
    unfold from_chars
    simp only [List.head?_cons, beq_self_eq_true, if_true, List.drop_succ_cons, List.drop_zero]
    by_cases he : rest.takeWhile Char.isDigit = []
    · simp [he, IsIntLiteral]
    · have he2 : (rest.takeWhile Char.isDigit).isEmpty = false := by
        simpa [List.isEmpty_iff] using he
      simp only [he2, Bool.false_eq_true, if_false]
      by_cases hr : INT_MIN ≤ -(digitsValue (rest.takeWhile Char.isDigit) : Int) ∧
          -(digitsValue (rest.takeWhile Char.isDigit) : Int) ≤ INT_MAX
      · simp only [hr, and_self, if_true, true_iff, forall_const, ne_eq, not_true_eq_false,
          false_implies, and_true]
        exact ⟨⟨he, hall rest, hr⟩, rfl⟩
      · simp only [hr, if_false]
        refine ⟨⟨fun h => by simp at h, fun h => absurd h.2.2 hr⟩, fun h => by simp at h,
          fun _ => trivial⟩
  · have hnm : ∀ rest, V ≠ '-' :: rest := fun rest h => hm ⟨rest, h⟩
    have hneg : (V.head? == some '-') = false := by
      cases V with
      | nil => rfl
      | cons c t =>
        simp only [List.head?_cons, beq_eq_false_iff_ne, ne_eq, Option.some.injEq]
        rintro rfl
        exact hnm t rfl
    have hp : intPrefix V = V.takeWhile Char.isDigit := by
      unfold intPrefix
      split
      · exact absurd rfl (hnm _)
      · rfl
    have hnm2 : ∀ ds, V.takeWhile Char.isDigit ≠ '-' :: ds := by
      intro ds h
      have := hall V '-' (by rw [h]; exact List.mem_cons_self _ _)
      exact absurd this (by decide)
    have hlit : IsIntLiteral (V.takeWhile Char.isDigit) ↔
        (V.takeWhile Char.isDigit ≠ [] ∧ (∀ c ∈ V.takeWhile Char.isDigit, c.isDigit = true) ∧
          IsInt (digitsValue (V.takeWhile Char.isDigit) : Int)) := by
      unfold IsIntLiteral
      split
      · rename_i ds heq
        exact absurd heq (hnm2 ds)
      · exact Iff.rfl
    have hval : literalValue (V.takeWhile Char.isDigit) =
        (digitsValue (V.takeWhile Char.isDigit) : Int) := by
      unfold literalValue
      split
      · rename_i ds heq
        exact absurd heq (hnm2 ds)
      · rfl
    rw [hp, hlit, hval]
    unfold from_chars
    simp only [hneg, Bool.false_eq_true, if_false]
    by_cases he : V.takeWhile Char.isDigit = []
    · simp [he]
    · have he2 : (V.takeWhile Char.isDigit).isEmpty = false := by
        simpa [List.isEmpty_iff] using he
      simp only [he2, Bool.false_eq_true, if_false]
      by_cases hr : INT_MIN ≤ (digitsValue (V.takeWhile Char.isDigit) : Int) ∧
          (digitsValue (V.takeWhile Char.isDigit) : Int) ≤ INT_MAX
      · simp only [hr, and_self, if_true, true_iff, forall_const, ne_eq, not_true_eq_false,
          false_implies, and_true]
        exact ⟨he, hall V, hr⟩
      · simp only [hr, if_false]
        refine ⟨⟨fun h => by simp at h, fun h => absurd h.2.2 hr⟩, fun h => by simp at h,
          fun _ => trivial⟩

/-- A `verbose=` line whose value starts with an integer literal (the longest run of an
optional `-` and digits) is adopted, whatever follows the digits. -/
theorem ReadSettingsLine_adopts_literal_start {σ : Type} (p : Project σ) (V : List Char)
    (h : IsIntLiteral (intPrefix V)) :
    ReadSettingsLine p ("verbose=".toList ++ V) =
      { p with m_Verbosity := literalValue (intPrefix V), m_UnsavedSettings := false } := by
  obtain ⟨h1, h2, -⟩ := from_chars_ok_iff V 0
  rw [ReadSettingsLine_verbose, if_pos (h1.mpr h), h2 (h1.mpr h)]

/-- A `verbose=` line whose value does not start with an integer literal in the range of
`int` leaves the state as it is. -/
theorem ReadSettingsLine_keeps_state_without_literal_start {σ : Type} (p : Project σ)
    (V : List Char) (h : ¬ IsIntLiteral (intPrefix V)) :
    ReadSettingsLine p ("verbose=".toList ++ V) = p := by
  obtain ⟨h1, -, -⟩ := from_chars_ok_iff V 0
  rw [ReadSettingsLine_verbose, if_neg (fun hk => h (h1.mp hk))]

/-- C7 (as amended): for every line "verbose=V", with P the longest prefix of V made of an
optional '-' followed by digits: if P is a base-10 integer literal in the int range, the
verbosity becomes the integer P writes and the settings become clean, whatever text
follows P in V; otherwise (V empty, "abc", " 3", "+3", "-", or digits out of range) both
the previous verbosity and the previous dirty state stay untouched. -/
theorem C7_verbose_value_adopted_iff_literal_start {σ : Type} (p : Project σ)
    (V : List Char) :
    (IsIntLiteral (intPrefix V) →
      ReadSettingsLine p ("verbose=".toList ++ V) =
        { p with m_Verbosity := literalValue (intPrefix V), m_UnsavedSettings := false }) ∧
    (¬ IsIntLiteral (intPrefix V) → ReadSettingsLine p ("verbose=".toList ++ V) = p) :=
  ⟨ReadSettingsLine_adopts_literal_start p V,
    ReadSettingsLine_keeps_state_without_literal_start p V⟩

/-- C7 (as amended) at the values "-12 # loud", adopted as -12 from verbosity 5 and dirty
settings, and "2147483648", one above INT_MAX, which leaves verbosity 5 and clean
settings as they are. -/
theorem C7_verbose_value_adopted_iff_literal_start_witness :
    (IsIntLiteral (intPrefix "-12 # loud".toList) ∧
      ReadSettingsLine ({ m_Storage := (), m_Verbosity := 5, m_UnsavedSettings := true } : Project Unit)
        ("verbose=".toList ++ "-12 # loud".toList) =
        { m_Storage := (), m_Verbosity := -12, m_UnsavedSettings := false }) ∧
    (¬ IsIntLiteral (intPrefix "2147483648".toList) ∧
      ReadSettingsLine ({ m_Storage := (), m_Verbosity := 5, m_UnsavedSettings := false } : Project Unit)
        ("verbose=".toList ++ "2147483648".toList) =
        { m_Storage := (), m_Verbosity := 5, m_UnsavedSettings := false }) :=
  ⟨⟨by decide, (C7_verbose_value_adopted_iff_literal_start _ "-12 # loud".toList).1 (by decide)⟩,
    ⟨by decide, (C7_verbose_value_adopted_iff_literal_start _ "2147483648".toList).2 (by decide)⟩⟩

/-- C7 as stated fails at the value "3abc": it is not a base-10 integer literal, yet the
line "verbose=3abc" is adopted, and a Project whose settings file holds it is constructed
with verbosity 3 and clean settings instead of the untouched default 1 and dirty. -/
theorem C7_counterexample_trailing_text_is_adopted :
    ¬ IsIntLiteral "3abc".toList ∧
    ReadSettingsLine ({ m_Storage := (), m_Verbosity := 1, m_UnsavedSettings := true } : Project Unit)
      "verbose=3abc".toList = { m_Storage := (), m_Verbosity := 3, m_UnsavedSettings := false } ∧
    Project.new (FixedStorage true [("settings.toml", FileType.File)] "verbose=3abc")
      "my_project" () =
      Except.ok { m_Storage := (), m_Verbosity := 3, m_UnsavedSettings := false } :=
  ⟨by decide, rfl, rfl⟩

/-! ## The filesystem adapter -/

theorem adapter_run_cons {ω : Type} (fs : FileSystem ω)
    (s : FilesystemProjectStorage ω) (c : Call) (cs : List Call) :
    (FilesystemProjectStorage.storage fs).run s (c :: cs) =
      (FilesystemProjectStorage.storage fs).run
        ((FilesystemProjectStorage.storage fs).step s c) cs := rfl

theorem adapter_isOpen_step {ω : Type} (fs : FileSystem ω)
    (s : FilesystemProjectStorage ω) (c : Call) :
    ((FilesystemProjectStorage.storage fs).step s c).IsOpen =
      match c with
      | Call.Open path => (fs.is_directory s.world path || s.IsOpen)
      | Call.Close => false
      | _ => s.IsOpen := by
  cases c with
  | Open path =>
    simp only [ProjectStorage.step, FilesystemProjectStorage.storage,
      FilesystemProjectStorage.Open]
    by_cases h : fs.is_directory s.world path = true
    · simp [h, FilesystemProjectStorage.IsOpen]
    · simp [h]
  | Close =>
    simp only [ProjectStorage.step, FilesystemProjectStorage.storage,
      FilesystemProjectStorage.Close]
    cases hd : s.m_ProjectDir <;> simp [FilesystemProjectStorage.IsOpen, hd]
  | IsOpen => rfl
  | List =>
    simp only [ProjectStorage.step, FilesystemProjectStorage.storage,
      FilesystemProjectStorage.List]
    cases hd : s.m_ProjectDir with
    | none => rfl
    | some dir =>
      simp only
      cases fs.recursive_directory_iterator s.world dir <;> rfl
  | ReadFile name =>
    simp only [ProjectStorage.step, FilesystemProjectStorage.storage,
      FilesystemProjectStorage.ReadFile]
    cases hd : s.m_ProjectDir <;> rfl
  | SaveFile name contents =>
    simp only [ProjectStorage.step, FilesystemProjectStorage.storage,
      FilesystemProjectStorage.SaveFile]
    cases hd : s.m_ProjectDir <;> simp [FilesystemProjectStorage.IsOpen, hd]

theorem OpenedAndNotClosed_cons {σ : Type} (S : ProjectStorage σ) (s : σ) (c : Call)
    (cs : List Call) :
    OpenedAndNotClosed S s (c :: cs) ↔
      (∃ path, c = Call.Open path ∧ (S.Open path s).1 = true ∧ Call.Close ∉ cs) ∨
        OpenedAndNotClosed S (S.step s c) cs := by
  unfold OpenedAndNotClosed
  constructor
  · rintro ⟨pre, path, post, heq, hok, hcl⟩
    rcases List.cons_eq_append_iff.mp heq with ⟨rfl, h2⟩ | ⟨pre2, rfl, h2⟩
    · simp only [List.cons.injEq] at h2
      obtain ⟨rfl, rfl⟩ := h2
      exact Or.inl ⟨path, rfl, hok, hcl⟩
    · exact Or.inr ⟨pre2, path, post, h2, hok, hcl⟩
  · rintro (⟨path, rfl, hok, hcl⟩ | ⟨pre, path, post, rfl, hok, hcl⟩)
    · exact ⟨[], path, cs, rfl, hok, hcl⟩
    · exact ⟨c :: pre, path, post, rfl, hok, hcl⟩

/-- The adapter is open after a run of calls exactly when an `Open` succeeded during the
run with no `Close` after it, or it was open before and the run has no `Close`. -/
theorem adapter_isOpen_run {ω : Type} (fs : FileSystem ω) (cs : List Call) :
    ∀ s : FilesystemProjectStorage ω,
    ((FilesystemProjectStorage.storage fs).run s cs).IsOpen = true ↔
      OpenedAndNotClosed (FilesystemProjectStorage.storage fs) s cs ∨
        (s.IsOpen = true ∧ Call.Close ∉ cs) := by
  induction cs with
  | nil =>
    intro s
    have : ¬ OpenedAndNotClosed (FilesystemProjectStorage.storage fs) s [] := by
      rintro ⟨pre, path, post, h, -⟩
      simp at h
    simp [ProjectStorage.run, this]
  | cons c cs ih =>
    intro s
    rw [adapter_run_cons, ih, OpenedAndNotClosed_cons, adapter_isOpen_step]
    cases c with
    | Open path =>
      have ho : ((FilesystemProjectStorage.storage fs).Open path s).1 =
          fs.is_directory s.world path := by
        simp only [FilesystemProjectStorage.storage, FilesystemProjectStorage.Open]
        by_cases h : fs.is_directory s.world path = true <;> simp [h]
      simp only [Call.Open.injEq, exists_eq_left', ho, Bool.or_eq_true, List.mem_cons,
        reduceCtorEq, false_or]
      tauto
    | Close => simp
    | IsOpen => simp
    | List => simp
    | ReadFile name => simp
    | SaveFile name contents => simp

/-- C10: on a FilesystemProjectStorage, in the state reached from a newly made object by
any sequence of calls: (1) the storage is not open exactly when no Open of the sequence
succeeded without a later Close; List, ReadFile and SaveFile throw the runtime_error
"Project is not open." exactly when the storage is not open; (2) when it is not open,
each of these calls leaves the state as it was, and Close returns false and leaves
the state as it was. -/
theorem C10_invalid_state_iff_not_open {ω : Type} (fs : FileSystem ω) (w : ω) (cs : Calls)
    (name contents : String) :
    ((((FilesystemProjectStorage.storage fs).run { world := w } cs).IsOpen = false ↔
        ¬ OpenedAndNotClosed (FilesystemProjectStorage.storage fs) { world := w } cs) ∧
      ((FilesystemProjectStorage.List fs
          ((FilesystemProjectStorage.storage fs).run { world := w } cs)).1 =
            Except.error (Exception.runtime_error "Project is not open.") ↔
        ((FilesystemProjectStorage.storage fs).run { world := w } cs).IsOpen = false) ∧
      ((FilesystemProjectStorage.ReadFile fs name
          ((FilesystemProjectStorage.storage fs).run { world := w } cs)).1 =
            Except.error (Exception.runtime_error "Project is not open.") ↔
        ((FilesystemProjectStorage.storage fs).run { world := w } cs).IsOpen = false) ∧
      ((FilesystemProjectStorage.SaveFile fs name contents
          ((FilesystemProjectStorage.storage fs).run { world := w } cs)).1 =
            Except.error (Exception.runtime_error "Project is not open.") ↔
        ((FilesystemProjectStorage.storage fs).run { world := w } cs).IsOpen = false)) ∧
    (((FilesystemProjectStorage.storage fs).run { world := w } cs).IsOpen = false →
      (FilesystemProjectStorage.List fs
          ((FilesystemProjectStorage.storage fs).run { world := w } cs)).2 =
        (FilesystemProjectStorage.storage fs).run { world := w } cs ∧
      (FilesystemProjectStorage.ReadFile fs name
          ((FilesystemProjectStorage.storage fs).run { world := w } cs)).2 =
        (FilesystemProjectStorage.storage fs).run { world := w } cs ∧
      (FilesystemProjectStorage.SaveFile fs name contents
          ((FilesystemProjectStorage.storage fs).run { world := w } cs)).2 =
        (FilesystemProjectStorage.storage fs).run { world := w } cs ∧
      FilesystemProjectStorage.Close
          ((FilesystemProjectStorage.storage fs).run { world := w } cs) =
        (false, (FilesystemProjectStorage.storage fs).run { world := w } cs)) := by
  have hrun := adapter_isOpen_run fs cs { world := w }
  generalize (FilesystemProjectStorage.storage fs).run { world := w } cs = s at hrun ⊢
  refine ⟨⟨?_, ?_, ?_, ?_⟩, ?_⟩
  · have h0 : ¬ (({ world := w } : FilesystemProjectStorage ω).IsOpen = true) := by
      simp [FilesystemProjectStorage.IsOpen]
    rw [← Bool.not_eq_true, hrun]
    tauto
  · unfold FilesystemProjectStorage.List FilesystemProjectStorage.IsOpen
    cases hd : s.m_ProjectDir with
    | none => simp [NotOpen]
    | some dir =>
      simp only
      cases fs.recursive_directory_iterator s.world dir <;> simp
  · unfold FilesystemProjectStorage.ReadFile FilesystemProjectStorage.IsOpen
    cases hd : s.m_ProjectDir <;> simp [NotOpen]
  · unfold FilesystemProjectStorage.SaveFile FilesystemProjectStorage.IsOpen
    cases hd : s.m_ProjectDir <;> simp [NotOpen]
  · intro h
    have hd : s.m_ProjectDir = none := by
      simpa [FilesystemProjectStorage.IsOpen] using h
    simp [FilesystemProjectStorage.List, FilesystemProjectStorage.ReadFile,
      FilesystemProjectStorage.SaveFile, FilesystemProjectStorage.Close, hd]

/-- C10 at the calls Open (succeeds), List, Close, Open (fails): a SaveFile made then leaves the state as it is. -/
theorem C10_invalid_state_iff_not_open_witness :
    (FilesystemProjectStorage.SaveFile TreeFs "settings.toml" "verbose=2"
        ((FilesystemProjectStorage.storage TreeFs).run { world := exampleTree }
          [Call.Open "/projects/my_project", Call.List, Call.Close, Call.Open "/nowhere"])).2 =
      (FilesystemProjectStorage.storage TreeFs).run { world := exampleTree }
          [Call.Open "/projects/my_project", Call.List, Call.Close, Call.Open "/nowhere"] :=
  ((C10_invalid_state_iff_not_open TreeFs exampleTree
    [Call.Open "/projects/my_project", Call.List, Call.Close, Call.Open "/nowhere"]
    "settings.toml" "verbose=2").2 rfl).2.2.1


theorem adapter_list_keys {ω : Type} (fs : FileSystem ω) (w : ω) (paths : List String) :
    ∀ (acc : StdMap) (kv : String × FileType),
      kv ∈ paths.foldl (fun files_and_dates path =>
          files_and_dates.insert (path, TypeOfFileAtPath fs w path)) acc →
      kv ∈ acc ∨ kv.1 ∈ paths := by
  induction paths with
  | nil => intro acc kv h; exact Or.inl h
  | cons p rest ih =>
    intro acc kv h
    simp only [List.foldl_cons] at h
    rcases ih _ kv h with h1 | h1
    · unfold StdMap.insert at h1
      split at h1
      · exact Or.inl h1
      · rcases List.mem_append.mp h1 with h2 | h2
        · exact Or.inl h2
        · simp only [List.mem_singleton] at h2
          subst h2
          exact Or.inr (List.mem_cons_self _ _)
    · exact Or.inr (List.mem_cons_of_mem _ h1)

/-- Over the filesystem adapter the settings file is never found: the iteration of the
project directory names each entry by a path that starts with the directory path
`/projects/<name>`, and none of these keys is `settings.toml`. The `Project` is then
constructed with the default verbosity and dirty settings, whatever the directory holds. -/
theorem adapter_never_finds_settings {ω : Type} (fs : FileSystem ω) (w : ω) (name : String)
    (paths : List String)
    (hDir : fs.is_directory w ("/projects/" ++ name) = true)
    (hIter : fs.recursive_directory_iterator w ("/projects/" ++ name) = Except.ok paths)
    (hPaths : ∀ p ∈ paths, ("/projects/" ++ name).data.isPrefixOf p.data = true) :
    Project.new (FilesystemProjectStorage.storage fs) name { world := w } =
      Except.ok { m_Storage := { m_ProjectDir := some ("/projects/" ++ name), world := w } } := by
  have hc : ¬ (paths.foldl (fun files_and_dates path =>
      StdMap.insert files_and_dates (path, TypeOfFileAtPath fs w path)) []).count
        SettingsFilename ≠ 0 := by
    rw [StdMap.count_ne_zero_iff]
    rintro ⟨t, ht⟩
    rcases adapter_list_keys fs w paths [] _ ht with h | h
    · simp at h
    · have hp := hPaths _ h
      have hd : ("/projects/" ++ name).data = '/' :: ("projects/" ++ name).data := by
        simp [String.data_append]
      rw [hd] at hp
      simp [SettingsFilename, List.isPrefixOf] at hp
  simp only [Project.new, FilesystemProjectStorage.storage, FilesystemProjectStorage.Open, hDir,
    if_true, Project.ReadSettings, FilesystemProjectStorage.List, hIter, hc, if_false]

/-- C9 fails on the code: in a file system where /projects/my_project is a directory that
holds the regular file settings.toml with content "verbose=3", the adapter lists the
file under the key "/projects/my_project/settings.toml"; the Project, which looks up
"settings.toml", makes no ReadFile call, keeps verbosity 1 and dirty settings, and its
teardown overwrites the file with "verbose=1". -/
theorem C9_adapter_keys_are_not_the_settings_filename :
    TreeFs.is_directory exampleTree "/projects/my_project" = true ∧
    TreeFs.is_regular_file exampleTree "/projects/my_project/settings.toml" = true ∧
    TreeFs.ifstream exampleTree "/projects/my_project/settings.toml" = "verbose=" ++ to_string 3 ∧
    (FilesystemProjectStorage.List TreeFs
        { m_ProjectDir := some "/projects/my_project", world := exampleTree }).1 =
      Except.ok [("/projects/my_project/settings.toml", FileType.File)] ∧
    ∃ proj : Project (FilesystemProjectStorage Tree × List Call),
      Project.new (Recording (FilesystemProjectStorage.storage TreeFs)) "my_project"
        ({ world := exampleTree }, []) = Except.ok proj ∧
      proj.m_Storage.2 = [Call.Open "/projects/my_project", Call.List] ∧
      proj.GetVerbosity = 1 ∧ proj.m_UnsavedSettings = true ∧
      (Project.destroy (Recording (FilesystemProjectStorage.storage TreeFs)) proj).2.1.world =
        [("/projects", Node.directory), ("/projects/my_project", Node.directory),
          ("/projects/my_project/settings.toml", Node.file "verbose=1")] :=
  ⟨by decide, by decide, by decide, rfl,
    { m_Storage := ({ m_ProjectDir := some "/projects/my_project", world := exampleTree },
        [Call.Open "/projects/my_project", Call.List]) },
    rfl, rfl, rfl, rfl, by decide⟩


end Mockery
